import Mathlib

/-!
Verification of the lotus head-synchronization scheduler (chain/sync_manager.go).

The Go source is embedded shallowly: pure data-structure operations
(syncTargetBucket, syncBucketSet) become Lean functions over lists; the
scheduler control loop becomes a step function on an explicit state record,
driven by an event list; the bootstrap gate (SetPeerHead) becomes a function
returning the updated registry state together with the tip set (if any)
forwarded to the scheduler.  Go maps are determinized as association lists in
insertion order; Go runtime panics (nil dereference, make with negative
capacity) are modelled as the error case of Except.
-/

namespace LotusSync

/-- Block identifier (CID), modelled abstractly as a natural number. -/
abbrev Cid := Nat

/-- Modelled from the spec: the external TipSet abstraction (types.TipSet is
not part of this repository snapshot).  A tip set exposes its block
identifiers (Cids), parent references (Parents), height and a totally ordered
parent weight; equality and the key are derived from the block identifiers. -/
structure TipSet where
  cids    : List Cid
  parents : List Cid
  height  : Nat
  weight  : Nat
  deriving DecidableEq, Repr

/-- Modelled from the spec: types.CidArrsEqual compares two Cid arrays. -/
def CidArrsEqual (a b : List Cid) : Bool := a == b

/-- Modelled from the spec: TipSet.Equals compares the block identifiers. -/
def TipSet.Equals (a b : TipSet) : Bool := a.cids == b.cids

/-- Modelled from the spec: TipSet.Key, the identity of a tip set, derived
from its block identifiers. -/
def TipSet.Key (a : TipSet) : List Cid := a.cids

/-- The same-chain relation used throughout syncTargetBucket.sameChainAs:
two tip sets are related when they are equal, or one's parents equal the
other's identifiers. -/
def tipRelated (a b : TipSet) : Bool :=
  a.Equals b || CidArrsEqual a.cids b.parents || CidArrsEqual a.parents b.cids

/-- Embeds syncTargetBucket: an insertion-ordered list of tip sets plus an
observation counter. -/
structure syncTargetBucket where
  tips  : List TipSet
  count : Nat
  deriving DecidableEq, Repr

/-- Embeds syncTargetBucket.sameChainAs: the bucket contains a tip set
same-chain-related to the argument. -/
def syncTargetBucket.sameChainAs (stb : syncTargetBucket) (ts : TipSet) : Bool :=
  stb.tips.any (fun t => tipRelated ts t)

/-- Embeds syncTargetBucket.add: the counter always increments; the tip set
is appended unless an equal member is already present. -/
def syncTargetBucket.add (stb : syncTargetBucket) (ts : TipSet) : syncTargetBucket :=
  if stb.tips.any (fun t => t.Equals ts) then
    { stb with count := stb.count + 1 }
  else
    { tips := stb.tips ++ [ts], count := stb.count + 1 }

/-- One step of the linear best-tip scan: the running best is replaced
exactly when the new tip set is strictly heavier. -/
def pickHeavier (best : Option TipSet) (ts : TipSet) : Option TipSet :=
  match best with
  | none => some ts
  | some b => if b.weight < ts.weight then some ts else some b

/-- Embeds syncTargetBucket.heaviestTipSet: linear scan keeping the first
member of maximal weight; none for an empty bucket (Go: nil). -/
def syncTargetBucket.heaviestTipSet (stb : syncTargetBucket) : Option TipSet :=
  stb.tips.foldl pickHeavier none

/-- Weight of a bucket for the Pop comparison: the weight of its heaviest
member.  The 0 default is never exercised by the scheduler, whose buckets
always have at least one tip (Go would dereference a nil tip set there). -/
def bucketWeight (b : syncTargetBucket) : Nat :=
  match b.heaviestTipSet with
  | some t => t.weight
  | none => 0

/-- Embeds syncBucketSet: a list of buckets in insertion order. -/
structure syncBucketSet where
  buckets : List syncTargetBucket
  deriving DecidableEq, Repr

/-- The scan inside syncBucketSet.Insert: the tip set joins the first
same-chain-related bucket, or a new singleton bucket with counter 1 is
appended. -/
def insertList : List syncTargetBucket → TipSet → List syncTargetBucket
  | [], ts => [{ tips := [ts], count := 1 }]
  | b :: bs, ts =>
    if b.sameChainAs ts then b.add ts :: bs else b :: insertList bs ts

/-- Embeds syncBucketSet.Insert. -/
def syncBucketSet.Insert (sbs : syncBucketSet) (ts : TipSet) : syncBucketSet :=
  { buckets := insertList sbs.buckets ts }

/-- The linear scan inside syncBucketSet.Pop together with removeBucket:
selects the first bucket whose heaviest member has maximal weight (the Go
loop replaces the running best only on strictly greater weight) and returns
it with the remaining buckets. -/
def selectBest : List syncTargetBucket → Option (syncTargetBucket × List syncTargetBucket)
  | [] => none
  | b :: bs =>
    match selectBest bs with
    | none => some (b, [])
    | some (bb, rest) =>
      if bucketWeight b < bucketWeight bb then some (bb, b :: rest) else some (b, bs)

/-- Embeds syncBucketSet.Pop.  On an empty set the Go code reaches
removeBucket(nil), whose make call with capacity len-1 = -1 panics at
runtime; that panic is the error case here. -/
def syncBucketSet.Pop (sbs : syncBucketSet) : Except Unit (syncTargetBucket × syncBucketSet) :=
  match selectBest sbs.buckets with
  | none => .error ()
  | some (b, rest) => .ok (b, { buckets := rest })

/-- The scan inside syncBucketSet.PopRelated: removes and returns the first
bucket same-chain-related to the tip set. -/
def popRelatedList : List syncTargetBucket → TipSet → Option (syncTargetBucket × List syncTargetBucket)
  | [], _ => none
  | b :: bs, ts =>
    if b.sameChainAs ts then some (b, bs)
    else
      match popRelatedList bs ts with
      | none => none
      | some (r, rest) => some (r, b :: rest)

/-- Embeds syncBucketSet.PopRelated. -/
def syncBucketSet.PopRelated (sbs : syncBucketSet) (ts : TipSet) :
    Option (syncTargetBucket × syncBucketSet) :=
  match popRelatedList sbs.buckets ts with
  | none => none
  | some (b, rest) => some (b, { buckets := rest })

/-- One step of the scan inside syncBucketSet.Heaviest: empty buckets are
skipped (Go would dereference nil there; scheduler buckets are never empty). -/
def heaviestStep (best : Option TipSet) (b : syncTargetBucket) : Option TipSet :=
  match b.heaviestTipSet with
  | none => best
  | some h => pickHeavier best h

/-- Embeds syncBucketSet.Heaviest: the heaviest tip set across all buckets,
by strict weight comparison, first of equal maximum standing. -/
def syncBucketSet.Heaviest (sbs : syncBucketSet) : Option TipSet :=
  sbs.buckets.foldl heaviestStep none

/-- Embeds syncResult: the tip set a worker synced and whether it succeeded. -/
structure syncResult where
  ts      : TipSet
  success : Bool
  deriving DecidableEq, Repr

/-- The scheduler-owned state of SyncManager: the active-sync map (Go map
from TipSetKey to TipSet, determinized as a list in insertion order — every
entry is stored under its own key), the pending queue, the overflow set
(activeSyncTips), the next dispatch target, and whether workerChan is
currently non-nil. -/
structure SchedState where
  activeSyncs    : List TipSet
  syncQueue      : syncBucketSet
  activeSyncTips : syncBucketSet
  nextSyncTarget : Option syncTargetBucket
  workerChanOpen : Bool
  deriving DecidableEq, Repr

/-- The scheduler state as NewSyncManager creates it. -/
def initSchedState : SchedState :=
  { activeSyncs := [], syncQueue := ⟨[]⟩, activeSyncTips := ⟨[]⟩,
    nextSyncTarget := none, workerChanOpen := false }

/-- Go map assignment, determinized: overwrite the entry with the same key in
place, else append. -/
def mapInsert (l : List TipSet) (ts : TipSet) : List TipSet :=
  if l.any (fun t => t.Key == ts.Key) then
    l.map (fun t => if t.Key == ts.Key then ts else t)
  else l ++ [ts]

/-- Go map delete, determinized: drop every entry with the given key. -/
def mapDelete (l : List TipSet) (k : List Cid) : List TipSet :=
  l.filter (fun t => !(t.Key == k))

/-- Embeds the scan at the top of SyncManager.scheduleIncoming: the loop over
activeSyncs stops (keeping the flag accumulated so far) at the first active
tip set equal to the incoming one, and sets the flag when the incoming tip
set's parents equal an active tip set's identifiers.  Note the child
direction is the only one that sets the flag, and equality stops the scan
without setting it. -/
def relatedToActiveSync : List TipSet → TipSet → Bool → Bool
  | [], _, acc => acc
  | acts :: rest, ts, acc =>
    if ts.Equals acts then acc
    else relatedToActiveSync rest ts (acc || CidArrsEqual ts.parents acts.cids)

/-- Embeds SyncManager.scheduleIncoming.  The only possible runtime fault is
the Pop on the pending queue, which is always preceded by an Insert. -/
def scheduleIncoming (sm : SchedState) (ts : TipSet) : Except Unit SchedState :=
  if relatedToActiveSync sm.activeSyncs ts false then
    .ok { sm with activeSyncTips := sm.activeSyncTips.Insert ts }
  else
    match sm.nextSyncTarget with
    | some tgt =>
      if tgt.sameChainAs ts then
        .ok { sm with nextSyncTarget := some (tgt.add ts) }
      else
        .ok { sm with syncQueue := sm.syncQueue.Insert ts }
    | none =>
      match (sm.syncQueue.Insert ts).Pop with
      | .error e => .error e
      | .ok (b, q) =>
        .ok { sm with syncQueue := q, nextSyncTarget := some b, workerChanOpen := true }

/-- Embeds SyncManager.scheduleProcessResult: the reported tip set's key is
deleted from the active-sync map, the first overflow bucket related to it is
popped, and on success that bucket is promoted to dispatch target (if none is
set) or appended to the pending queue; on failure it is dropped. -/
def scheduleProcessResult (sm : SchedState) (res : syncResult) : SchedState :=
  let acts := mapDelete sm.activeSyncs res.ts.Key
  match sm.activeSyncTips.PopRelated res.ts with
  | none => { sm with activeSyncs := acts }
  | some (relbucket, tips) =>
    if res.success then
      match sm.nextSyncTarget with
      | none =>
        { sm with activeSyncs := acts, activeSyncTips := tips,
                  nextSyncTarget := some relbucket, workerChanOpen := true }
      | some _ =>
        { sm with activeSyncs := acts, activeSyncTips := tips,
                  syncQueue := ⟨sm.syncQueue.buckets ++ [relbucket]⟩ }
    else { sm with activeSyncs := acts, activeSyncTips := tips }

/-- Embeds SyncManager.scheduleWorkSent: the dispatch target's heaviest tip
set is recorded in the active-sync map under its key, and the next target is
popped from the pending queue when one is available, else cleared together
with workerChan.  The error cases are the nil dereferences Go would hit on a
missing target or an empty bucket; the select statement fires this case only
while workerChan is non-nil, so the first is unreachable in scheduler runs. -/
def scheduleWorkSent (sm : SchedState) : Except Unit SchedState :=
  match sm.nextSyncTarget with
  | none => .error ()
  | some tgt =>
    match tgt.heaviestTipSet with
    | none => .error ()
    | some hts =>
      let acts := mapInsert sm.activeSyncs hts
      if 0 < sm.syncQueue.buckets.length then
        match sm.syncQueue.Pop with
        | .error e => .error e
        | .ok (b, q) =>
          .ok { sm with activeSyncs := acts, syncQueue := q, nextSyncTarget := some b }
      else
        .ok { sm with activeSyncs := acts, nextSyncTarget := none, workerChanOpen := false }

/-- The three event sources the control loop (SyncManager.syncScheduler)
multiplexes: an incoming tip set, a worker result, and the handoff of the
current dispatch target to a worker. -/
inductive SchedEvent where
  | incoming (ts : TipSet)
  | result (r : syncResult)
  | workSent
  deriving DecidableEq, Repr

/-- One iteration of the control loop.  The workSent case can only fire when
workerChan is non-nil (the select case is disabled otherwise), so firing it
with no dispatch target is not a step of any run. -/
def schedStep (sm : SchedState) : SchedEvent → Except Unit SchedState
  | .incoming ts => scheduleIncoming sm ts
  | .result r => .ok (scheduleProcessResult sm r)
  | .workSent => if sm.workerChanOpen then scheduleWorkSent sm else .error ()

/-- Runs the control loop over a list of events. -/
def runEvents (sm : SchedState) : List SchedEvent → Except Unit SchedState
  | [] => .ok sm
  | e :: es =>
    match schedStep sm e with
    | .error u => .error u
    | .ok sm2 => runEvents sm2 es

/-- Embeds the package constant BootstrapPeerThreshold (declared 2 in the
source). -/
def BootstrapPeerThreshold : Nat := 2

/-- Embeds the package constant syncWorkerCount. -/
def syncWorkerCount : Nat := 3

/-- The registry-side state of SyncManager: the peer-head map (determinized
as an association list in insertion order), the bootstrapped flag and the
bootstrap threshold. -/
structure SyncManager where
  peerHeads    : List (Nat × TipSet)
  bootstrapped : Bool
  bspThresh    : Nat
  deriving DecidableEq, Repr

/-- Embeds NewSyncManager: note the threshold is hard-coded to 1, not to
BootstrapPeerThreshold. -/
def NewSyncManager : SyncManager :=
  { peerHeads := [], bootstrapped := false, bspThresh := 1 }

/-- Go map assignment on the peer-head map: overwrite in place, else append. -/
def setHead (l : List (Nat × TipSet)) (p : Nat) (ts : TipSet) : List (Nat × TipSet) :=
  if l.any (fun e => e.1 == p) then
    l.map (fun e => if e.1 == p then (p, ts) else e)
  else l ++ [(p, ts)]

/-- Embeds SyncManager.syncedPeerCount: the number of peers whose recorded
head has height greater than zero. -/
def syncedPeerCount (l : List (Nat × TipSet)) : Nat :=
  (l.filter (fun e => 0 < e.2.height)).length

/-- Embeds SyncManager.selectSyncTarget: the peer heads are sorted by height
(Go uses an unstable sort over nondeterministic map order; determinized here
by a stable sort over insertion order), bucketed by lineage, and the heaviest
tip set across all buckets is returned.  The returned error of the Go
function is always nil and is omitted. -/
def selectSyncTarget (l : List (Nat × TipSet)) : Option TipSet :=
  let sorted := (l.map Prod.snd).insertionSort (fun a b => a.height < b.height)
  (sorted.foldl syncBucketSet.Insert ⟨[]⟩).Heaviest

/-- Embeds SyncManager.SetPeerHead: records the head; before bootstrap,
forwards nothing below quorum, and on quorum forwards the selected initial
sync target and sets the bootstrapped flag (the error branch after
selectSyncTarget is dead code, since that function always returns a nil
error); after bootstrap, forwards the reported head.  The second component is
the tip set sent on incomingTipSets, if any. -/
def SyncManager.SetPeerHead (sm : SyncManager) (p : Nat) (ts : TipSet) :
    SyncManager × Option TipSet :=
  let heads := setHead sm.peerHeads p ts
  if sm.bootstrapped then
    ({ sm with peerHeads := heads }, some ts)
  else
    if sm.bspThresh ≤ syncedPeerCount heads then
      ({ sm with peerHeads := heads, bootstrapped := true }, selectSyncTarget heads)
    else
      ({ sm with peerHeads := heads }, none)

/-- Two buckets are unrelated when no member of one is same-chain-related to
a member of the other. -/
abbrev BucketsUnrelated (a b : syncTargetBucket) : Prop :=
  ∀ t ∈ a.tips, ∀ u ∈ b.tips, tipRelated t u = false

/-- A collection of peer heads is well formed when tip sets with equal block
identifiers are identical (equal identifiers name the same blocks, hence the
same parents, height and weight). -/
abbrev WFHeads (heads : List TipSet) : Prop :=
  ∀ a ∈ heads, ∀ b ∈ heads, a.Equals b = true → a = b

/-- All tip sets stored across a list of buckets. -/
def allTips : List syncTargetBucket → List TipSet
  | [] => []
  | b :: bs => b.tips ++ allTips bs

/-- A tip set at height 2: its parents are the identifiers of exC below. -/
def exA : TipSet := ⟨[1], [0], 2, 10⟩

/-- A tip set whose identifiers equal the parents of exA: syncing it in
parallel with exA duplicates work on the same lineage. -/
def exC : TipSet := ⟨[0], [9], 1, 5⟩

/-- Chain u1 ← u2 ← u3 plus an unrelated tip set u0, used to drive the
pending queue into holding two same-chain-related buckets. -/
def u1 : TipSet := ⟨[1], [0], 1, 1⟩

/-- Child of u1. -/
def u2 : TipSet := ⟨[2], [1], 2, 1⟩

/-- Child of u2 (grandchild of u1). -/
def u3 : TipSet := ⟨[3], [2], 3, 1⟩

/-- A tip set unrelated to the u1 chain. -/
def u0 : TipSet := ⟨[50], [60], 1, 1⟩

/-- Event sequence whose processing leaves two same-chain-related buckets in
the pending queue: u1 is dispatched; its child u2 overflows; u0 becomes the
new dispatch target; u3 (child of u2) is queued; u1 succeeds, so the bucket
holding u2 is appended to the queue next to the bucket holding u3. -/
def c6Trace : List SchedEvent :=
  [.incoming u1, .workSent, .incoming u2, .incoming u0, .incoming u3,
   .result ⟨u1, true⟩]

/-- A two-bucket set whose second bucket is the heavier one, for witnesses. -/
def wPopSet : syncBucketSet :=
  ⟨[⟨[⟨[7], [6], 1, 3⟩], 1⟩, ⟨[⟨[9], [8], 1, 8⟩, ⟨[11], [9], 2, 4⟩], 2⟩]⟩

/-- A heavy tip set at height 4, used as the second peer head in the
bootstrap-gating witness. -/
def wT9 : TipSet := ⟨[5], [4], 4, 99⟩

/-- A scheduler state with one active sync, one overflow bucket related to
it, and no dispatch target, for witnesses. -/
def wState : SchedState :=
  { activeSyncs := [u1], syncQueue := ⟨[]⟩,
    activeSyncTips := ⟨[⟨[u2], 1⟩]⟩, nextSyncTarget := none,
    workerChanOpen := false }

/-! Helper lemmas about the bucket operations. -/

theorem tipRelated_symm (a b : TipSet) : tipRelated a b = tipRelated b a := by
  simp only [tipRelated, TipSet.Equals, CidArrsEqual]
  rw [Bool.eq_iff_iff]
  simp only [Bool.or_eq_true, beq_iff_eq]
  constructor
  · rintro ((h | h) | h)
    · exact Or.inl (Or.inl h.symm)
    · exact Or.inr h.symm
    · exact Or.inl (Or.inr h.symm)
  · rintro ((h | h) | h)
    · exact Or.inl (Or.inl h.symm)
    · exact Or.inr h.symm
    · exact Or.inl (Or.inr h.symm)

theorem foldl_pickHeavier_mem (l : List TipSet) (acc : Option TipSet) (t : TipSet)
    (h : l.foldl pickHeavier acc = some t) : acc = some t ∨ t ∈ l := by
  induction l generalizing acc with
  | nil => exact Or.inl h
  | cons x rest ih =>
    simp only [List.foldl_cons] at h
    rcases ih _ h with h2 | h2
    · rcases acc with _ | b
      · simp only [pickHeavier] at h2
        exact Or.inr (by simp [← Option.some_inj.mp h2])
      · simp only [pickHeavier] at h2
        by_cases hw : b.weight < x.weight
        · rw [if_pos hw] at h2
          exact Or.inr (by simp [← Option.some_inj.mp h2])
        · rw [if_neg hw] at h2
          exact Or.inl h2
    · exact Or.inr (List.mem_cons_of_mem _ h2)

theorem foldl_pickHeavier_ge (l : List TipSet) (acc : Option TipSet) (t : TipSet)
    (h : l.foldl pickHeavier acc = some t) :
    (∀ a, acc = some a → a.weight ≤ t.weight) ∧ ∀ x ∈ l, x.weight ≤ t.weight := by
  induction l generalizing acc with
  | nil =>
    refine ⟨fun a ha => ?_, by simp⟩
    simp only [List.foldl_nil] at h
    rw [h] at ha
    exact le_of_eq (congrArg TipSet.weight (Option.some_inj.mp ha.symm))
  | cons x rest ih =>
    simp only [List.foldl_cons] at h
    obtain ⟨h1, h2⟩ := ih _ h
    constructor
    · intro a ha
      subst ha
      simp only [pickHeavier] at h1
      by_cases hw : a.weight < x.weight
      · simp only [if_pos hw] at h1
        exact le_of_lt (lt_of_lt_of_le hw (h1 x rfl))
      · simp only [if_neg hw] at h1
        exact h1 a rfl
    · intro y hy
      rcases List.mem_cons.mp hy with rfl | hy
      · rcases acc with _ | b
        · simp only [pickHeavier] at h1
          exact h1 y rfl
        · simp only [pickHeavier] at h1
          by_cases hw : b.weight < y.weight
          · simp only [if_pos hw] at h1
            exact h1 y rfl
          · simp only [if_neg hw] at h1
            exact le_trans (le_of_not_lt hw) (h1 b rfl)
      · exact h2 y hy

theorem foldl_pickHeavier_isSome (l : List TipSet) (acc : Option TipSet)
    (h : acc.isSome = true ∨ l ≠ []) : (l.foldl pickHeavier acc).isSome = true := by
  induction l generalizing acc with
  | nil =>
    rcases h with h | h
    · exact h
    · exact absurd rfl h
  | cons x rest ih =>
    simp only [List.foldl_cons]
    refine ih _ (Or.inl ?_)
    rcases acc with _ | b
    · rfl
    · simp only [pickHeavier]
      by_cases hw : b.weight < x.weight
      · simp [hw]
      · simp [hw]

theorem foldl_pickHeavier_first_max (l : List TipSet) (a t : TipSet)
    (h : l.foldl pickHeavier (some a) = some t) :
    (t = a ∧ ∀ x ∈ l, x.weight ≤ a.weight) ∨
      ∃ l1 l2, l = l1 ++ t :: l2 ∧ a.weight < t.weight ∧
        (∀ x ∈ l1, x.weight < t.weight) ∧ ∀ x ∈ l2, x.weight ≤ t.weight := by
  induction l generalizing a with
  | nil => exact Or.inl ⟨(Option.some_inj.mp h).symm, by simp⟩
  | cons x rest ih =>
    simp only [List.foldl_cons, pickHeavier] at h
    by_cases hw : a.weight < x.weight
    · rw [if_pos hw] at h
      rcases ih _ h with ⟨rfl, h2⟩ | ⟨l1, l2, rfl, hat, h1, h2⟩
      · exact Or.inr ⟨[], rest, rfl, hw, by simp, h2⟩
      · exact Or.inr ⟨x :: l1, l2, rfl, lt_trans hw hat,
          fun y hy => (List.mem_cons.mp hy).elim (fun hyx => hyx ▸ hat) (h1 y), h2⟩
    · rw [if_neg hw] at h
      rcases ih _ h with ⟨rfl, h2⟩ | ⟨l1, l2, rfl, hat, h1, h2⟩
      · exact Or.inl ⟨rfl, fun y hy => (List.mem_cons.mp hy).elim
          (fun hyx => hyx ▸ le_of_not_lt hw) (h2 y)⟩
      · exact Or.inr ⟨x :: l1, l2, rfl, hat,
          fun y hy => (List.mem_cons.mp hy).elim
            (fun hyx => hyx ▸ lt_of_le_of_lt (le_of_not_lt hw) hat) (h1 y), h2⟩

theorem heaviestTipSet_first_max (b : syncTargetBucket) (hb : b.tips ≠ []) :
    ∃ t l1 l2, b.heaviestTipSet = some t ∧ b.tips = l1 ++ t :: l2 ∧
      (∀ x ∈ l1, x.weight < t.weight) ∧ ∀ x ∈ l2, x.weight ≤ t.weight := by
  match hm : b.tips with
  | [] => exact absurd hm hb
  | t0 :: rest =>
    have hcomp : b.heaviestTipSet = rest.foldl pickHeavier (some t0) := by
      simp [syncTargetBucket.heaviestTipSet, hm, pickHeavier]
    have hsome : b.heaviestTipSet.isSome = true := by
      rw [hcomp]
      exact foldl_pickHeavier_isSome _ _ (Or.inl rfl)
    obtain ⟨t, ht⟩ := Option.isSome_iff_exists.mp hsome
    rcases foldl_pickHeavier_first_max rest t0 t (hcomp ▸ ht) with ⟨rfl, h2⟩ | ⟨l1, l2, heq, hat, h1, h2⟩
    · exact ⟨t, [], rest, ht, by simp, by simp, h2⟩
    · exact ⟨t, t0 :: l1, l2, ht, by simp [heq], fun y hy =>
        (List.mem_cons.mp hy).elim (fun hyx => hyx ▸ hat) (h1 y), h2⟩

theorem heaviestTipSet_mem (b : syncTargetBucket) (t : TipSet)
    (h : b.heaviestTipSet = some t) : t ∈ b.tips := by
  rcases foldl_pickHeavier_mem _ _ _ h with h2 | h2
  · exact absurd h2 (by simp)
  · exact h2

theorem heaviestTipSet_ge (b : syncTargetBucket) (t : TipSet)
    (h : b.heaviestTipSet = some t) : ∀ x ∈ b.tips, x.weight ≤ t.weight :=
  (foldl_pickHeavier_ge _ _ _ h).2

theorem heaviestTipSet_isSome (b : syncTargetBucket) (hb : b.tips ≠ []) :
    b.heaviestTipSet.isSome = true :=
  foldl_pickHeavier_isSome _ _ (Or.inr hb)

theorem selectBest_eq_none (l : List syncTargetBucket) :
    selectBest l = none ↔ l = [] := by
  cases l with
  | nil => simp [selectBest]
  | cons b bs =>
    simp only [selectBest]
    constructor
    · intro h
      split at h
      · exact absurd h (by simp)
      · split at h
        · exact absurd h (by simp)
        · exact absurd h (by simp)
    · intro h
      exact absurd h (by simp)

theorem selectBest_first_max (l : List syncTargetBucket) (b : syncTargetBucket)
    (rest : List syncTargetBucket) (h : selectBest l = some (b, rest)) :
    ∃ l1 l2, l = l1 ++ b :: l2 ∧ rest = l1 ++ l2 ∧
      (∀ c ∈ l1, bucketWeight c < bucketWeight b) ∧
      ∀ c ∈ l2, bucketWeight c ≤ bucketWeight b := by
  induction l generalizing b rest with
  | nil => exact absurd h (by simp [selectBest])
  | cons b0 bs ih =>
    simp only [selectBest] at h
    split at h
    case h_1 hrec =>
      obtain ⟨rfl, rfl⟩ : b0 = b ∧ [] = rest := by
        have := Option.some_inj.mp h
        exact ⟨congrArg Prod.fst this, congrArg Prod.snd this⟩
      have hbs : bs = [] := (selectBest_eq_none bs).mp hrec
      exact ⟨[], [], by simp [hbs], by simp, by simp, by simp⟩
    case h_2 bb rest2 hrec =>
      obtain ⟨l1, l2, hsplit, hrest, hlt, hle⟩ := ih bb rest2 hrec
      by_cases hw : bucketWeight b0 < bucketWeight bb
      · rw [if_pos hw] at h
        obtain ⟨rfl, rfl⟩ : bb = b ∧ b0 :: rest2 = rest := by
          have := Option.some_inj.mp h
          exact ⟨congrArg Prod.fst this, congrArg Prod.snd this⟩
        refine ⟨b0 :: l1, l2, by simp [hsplit], by simp [hrest], ?_, hle⟩
        intro c hc
        rcases List.mem_cons.mp hc with rfl | hc
        · exact hw
        · exact hlt c hc
      · rw [if_neg hw] at h
        obtain ⟨rfl, rfl⟩ : b0 = b ∧ bs = rest := by
          have := Option.some_inj.mp h
          exact ⟨congrArg Prod.fst this, congrArg Prod.snd this⟩
        refine ⟨[], bs, by simp, by simp, by simp, ?_⟩
        intro c hc
        have hble : bucketWeight bb ≤ bucketWeight b0 := le_of_not_lt hw
        rw [hsplit] at hc
        rcases List.mem_append.mp hc with hc | hc
        · exact le_of_lt (lt_of_lt_of_le (hlt c hc) hble)
        · rcases List.mem_cons.mp hc with rfl | hc
          · exact hble
          · exact le_trans (hle c hc) hble

theorem selectBest_isSome (l : List syncTargetBucket) (h : l ≠ []) :
    (selectBest l).isSome = true := by
  match hrec : selectBest l with
  | none => exact absurd ((selectBest_eq_none l).mp hrec) h
  | some p => rfl

/-! Lemmas about allTips, add and insertList. -/

theorem allTips_append (l1 l2 : List syncTargetBucket) :
    allTips (l1 ++ l2) = allTips l1 ++ allTips l2 := by
  induction l1 with
  | nil => simp [allTips]
  | cons b bs ih => simp [allTips, ih]

theorem mem_add_tips (b : syncTargetBucket) (ts x : TipSet)
    (h : x ∈ (b.add ts).tips) : x ∈ b.tips ∨ x = ts := by
  simp only [syncTargetBucket.add] at h
  by_cases hc : b.tips.any (fun t => t.Equals ts)
  · rw [if_pos hc] at h
    exact Or.inl h
  · rw [if_neg hc] at h
    simp only [List.mem_append, List.mem_singleton] at h
    exact h

theorem add_tips_sub (b : syncTargetBucket) (ts x : TipSet)
    (h : x ∈ b.tips) : x ∈ (b.add ts).tips := by
  simp only [syncTargetBucket.add]
  by_cases hc : b.tips.any (fun t => t.Equals ts)
  · rw [if_pos hc]
    exact h
  · rw [if_neg hc]
    exact List.mem_append_left _ h

theorem add_covers (b : syncTargetBucket) (ts : TipSet) :
    ∃ x ∈ (b.add ts).tips, x.Equals ts = true := by
  simp only [syncTargetBucket.add]
  by_cases hc : b.tips.any (fun t => t.Equals ts)
  · rw [if_pos hc]
    obtain ⟨x, hx, hxe⟩ := List.any_eq_true.mp hc
    exact ⟨x, hx, hxe⟩
  · rw [if_neg hc]
    refine ⟨ts, List.mem_append_right _ (List.mem_singleton.mpr rfl), ?_⟩
    simp [TipSet.Equals]

theorem mem_insertList (bs : List syncTargetBucket) (ts : TipSet)
    (c : syncTargetBucket) (h : c ∈ insertList bs ts) :
    c ∈ bs ∨ (∃ b2 ∈ bs, c = b2.add ts ∧ b2.sameChainAs ts = true) ∨
      c = ⟨[ts], 1⟩ := by
  induction bs with
  | nil =>
    simp only [insertList, List.mem_singleton] at h
    exact Or.inr (Or.inr h)
  | cons b bs ih =>
    simp only [insertList] at h
    by_cases hc : b.sameChainAs ts
    · rw [if_pos hc] at h
      rcases List.mem_cons.mp h with rfl | h
      · exact Or.inr (Or.inl ⟨b, List.mem_cons_self b bs, rfl, hc⟩)
      · exact Or.inl (List.mem_cons_of_mem _ h)
    · rw [if_neg hc] at h
      rcases List.mem_cons.mp h with rfl | h
      · exact Or.inl (List.mem_cons_self c bs)
      · rcases ih h with h2 | h2 | h2
        · exact Or.inl (List.mem_cons_of_mem _ h2)
        · obtain ⟨b2, hb2, hc2, hs2⟩ := h2
          exact Or.inr (Or.inl ⟨b2, List.mem_cons_of_mem _ hb2, hc2, hs2⟩)
        · exact Or.inr (Or.inr h2)

theorem mem_allTips_insertList (bs : List syncTargetBucket) (ts x : TipSet)
    (h : x ∈ allTips (insertList bs ts)) : x ∈ allTips bs ∨ x = ts := by
  induction bs with
  | nil =>
    simp only [insertList, allTips, List.append_nil] at h
    rcases List.mem_singleton.mp h with rfl
    exact Or.inr rfl
  | cons b bs ih =>
    simp only [insertList] at h
    by_cases hc : b.sameChainAs ts
    · rw [if_pos hc] at h
      simp only [allTips, List.mem_append] at h ⊢
      rcases h with h | h
      · rcases mem_add_tips b ts x h with h2 | h2
        · exact Or.inl (Or.inl h2)
        · exact Or.inr h2
      · exact Or.inl (Or.inr h)
    · rw [if_neg hc] at h
      simp only [allTips, List.mem_append] at h ⊢
      rcases h with h | h
      · exact Or.inl (Or.inl h)
      · rcases ih h with h2 | h2
        · exact Or.inl (Or.inr h2)
        · exact Or.inr h2

theorem allTips_sub_insertList (bs : List syncTargetBucket) (ts x : TipSet)
    (h : x ∈ allTips bs) : x ∈ allTips (insertList bs ts) := by
  induction bs with
  | nil => exact absurd h (by simp [allTips])
  | cons b bs ih =>
    simp only [allTips, List.mem_append] at h
    simp only [insertList]
    by_cases hc : b.sameChainAs ts
    · rw [if_pos hc]
      simp only [allTips, List.mem_append]
      rcases h with h | h
      · exact Or.inl (add_tips_sub b ts x h)
      · exact Or.inr h
    · rw [if_neg hc]
      simp only [allTips, List.mem_append]
      rcases h with h | h
      · exact Or.inl h
      · exact Or.inr (ih h)

theorem insertList_covers (bs : List syncTargetBucket) (ts : TipSet) :
    ∃ x ∈ allTips (insertList bs ts), x.Equals ts = true := by
  induction bs with
  | nil =>
    refine ⟨ts, ?_, by simp [TipSet.Equals]⟩
    simp [insertList, allTips]
  | cons b bs ih =>
    simp only [insertList]
    by_cases hc : b.sameChainAs ts
    · rw [if_pos hc]
      obtain ⟨x, hx, hxe⟩ := add_covers b ts
      exact ⟨x, by simp only [allTips, List.mem_append]; exact Or.inl hx, hxe⟩
    · rw [if_neg hc]
      obtain ⟨x, hx, hxe⟩ := ih
      exact ⟨x, by simp only [allTips, List.mem_append]; exact Or.inr hx, hxe⟩

theorem insertList_ne_nil (bs : List syncTargetBucket) (ts : TipSet) :
    insertList bs ts ≠ [] := by
  match bs with
  | [] => simp [insertList]
  | b :: bs2 =>
    simp only [insertList]
    by_cases hc : b.sameChainAs ts
    · rw [if_pos hc]; simp
    · rw [if_neg hc]; simp

/-! Lemmas about the Heaviest scan. -/

theorem foldl_heaviestStep_mem (l : List syncTargetBucket) (acc : Option TipSet)
    (t : TipSet) (h : l.foldl heaviestStep acc = some t) :
    acc = some t ∨ t ∈ allTips l := by
  induction l generalizing acc with
  | nil => exact Or.inl h
  | cons b bs ih =>
    simp only [List.foldl_cons] at h
    rcases ih _ h with h2 | h2
    · simp only [heaviestStep] at h2
      match hb : b.heaviestTipSet with
      | none =>
        rw [hb] at h2
        exact Or.inl h2
      | some ht =>
        rw [hb] at h2
        rcases acc with _ | a
        · simp only [pickHeavier] at h2
          refine Or.inr ?_
          simp only [allTips, List.mem_append]
          exact Or.inl (Option.some_inj.mp h2 ▸ heaviestTipSet_mem b ht hb)
        · simp only [pickHeavier] at h2
          by_cases hw : a.weight < ht.weight
          · rw [if_pos hw] at h2
            refine Or.inr ?_
            simp only [allTips, List.mem_append]
            exact Or.inl (Option.some_inj.mp h2 ▸ heaviestTipSet_mem b ht hb)
          · rw [if_neg hw] at h2
            exact Or.inl h2
    · refine Or.inr ?_
      simp only [allTips, List.mem_append]
      exact Or.inr h2

theorem foldl_heaviestStep_ge (l : List syncTargetBucket) (acc : Option TipSet)
    (t : TipSet) (h : l.foldl heaviestStep acc = some t) :
    (∀ a, acc = some a → a.weight ≤ t.weight) ∧ ∀ x ∈ allTips l, x.weight ≤ t.weight := by
  induction l generalizing acc with
  | nil =>
    refine ⟨fun a ha => ?_, by simp [allTips]⟩
    simp only [List.foldl_nil] at h
    rw [h] at ha
    exact le_of_eq (congrArg TipSet.weight (Option.some_inj.mp ha.symm))
  | cons b bs ih =>
    simp only [List.foldl_cons] at h
    obtain ⟨h1, h2⟩ := ih _ h
    have hstep : ∀ a, heaviestStep acc b = some a → ∀ y, acc = some y → y.weight ≤ a.weight := by
      intro a ha y hy
      subst hy
      simp only [heaviestStep] at ha
      match hb : b.heaviestTipSet with
      | none =>
        rw [hb] at ha
        exact le_of_eq (congrArg TipSet.weight (Option.some_inj.mp ha))
      | some ht =>
        rw [hb] at ha
        simp only [pickHeavier] at ha
        by_cases hw : y.weight < ht.weight
        · rw [if_pos hw] at ha
          exact le_of_lt (lt_of_lt_of_le hw (le_of_eq (congrArg TipSet.weight (Option.some_inj.mp ha))))
        · rw [if_neg hw] at ha
          exact le_of_eq (congrArg TipSet.weight (Option.some_inj.mp ha))
    constructor
    · intro a ha
      have hs : (heaviestStep acc b).isSome = true := by
        match hs2 : heaviestStep acc b with
        | some v => rfl
        | none =>
          simp only [heaviestStep] at hs2
          match hb : b.heaviestTipSet with
          | none =>
            rw [hb] at hs2
            rw [ha] at hs2
            exact absurd hs2 (by simp)
          | some ht =>
            rw [hb] at hs2
            rcases acc with _ | y
            · exact absurd hs2 (by simp [pickHeavier])
            · simp only [pickHeavier] at hs2
              by_cases hw : y.weight < ht.weight
              · rw [if_pos hw] at hs2
                exact absurd hs2 (by simp)
              · rw [if_neg hw] at hs2
                exact absurd hs2 (by simp)
      obtain ⟨v, hv⟩ := Option.isSome_iff_exists.mp hs
      exact le_trans (hstep v hv a ha) (h1 v hv)
    · intro x hx
      simp only [allTips, List.mem_append] at hx
      rcases hx with hx | hx
      · obtain ⟨ht, hht⟩ := Option.isSome_iff_exists.mp
          (heaviestTipSet_isSome b (by intro hnil; rw [hnil] at hx; exact absurd hx (by simp)))
        have hxht : x.weight ≤ ht.weight := heaviestTipSet_ge b ht hht x hx
        have hstep2 : ∀ a, heaviestStep acc b = some a → ht.weight ≤ a.weight := by
          intro a ha
          simp only [heaviestStep, hht] at ha
          rcases acc with _ | y
          · simp only [pickHeavier] at ha
            exact le_of_eq (congrArg TipSet.weight (Option.some_inj.mp ha))
          · simp only [pickHeavier] at ha
            by_cases hw : y.weight < ht.weight
            · rw [if_pos hw] at ha
              exact le_of_eq (congrArg TipSet.weight (Option.some_inj.mp ha))
            · rw [if_neg hw] at ha
              exact le_trans (le_of_not_lt hw) (le_of_eq (congrArg TipSet.weight (Option.some_inj.mp ha)))
        have hs : (heaviestStep acc b) = some (ht) ∨ ∃ y, acc = some y ∧ heaviestStep acc b = some y := by
          simp only [heaviestStep, hht]
          rcases acc with _ | y
          · exact Or.inl (by simp [pickHeavier])
          · simp only [pickHeavier]
            by_cases hw : y.weight < ht.weight
            · rw [if_pos hw]
              exact Or.inl rfl
            · rw [if_neg hw]
              exact Or.inr ⟨y, rfl, rfl⟩
        rcases hs with hs | ⟨y, hy, hs⟩
        · exact le_trans hxht (h1 ht hs)
        · exact le_trans (le_trans hxht (hstep2 y hs)) (h1 y hs)
      · exact h2 x hx

theorem heaviestStep_isSome_of_acc (b : syncTargetBucket) (y : TipSet) :
    (heaviestStep (some y) b).isSome = true := by
  simp only [heaviestStep]
  match hb : b.heaviestTipSet with
  | none => rfl
  | some ht =>
    simp only [pickHeavier]
    by_cases hw : y.weight < ht.weight
    · simp [hw]
    · simp [hw]

theorem foldl_heaviestStep_acc_some (l : List syncTargetBucket) (acc : Option TipSet)
    (h : acc.isSome = true) : (l.foldl heaviestStep acc).isSome = true := by
  induction l generalizing acc with
  | nil => exact h
  | cons b bs ih =>
    simp only [List.foldl_cons]
    obtain ⟨y, hy⟩ := Option.isSome_iff_exists.mp h
    subst hy
    exact ih _ (heaviestStep_isSome_of_acc b y)

theorem foldl_heaviestStep_isSome (l : List syncTargetBucket) (acc : Option TipSet)
    (x : TipSet) (hx : x ∈ allTips l) : (l.foldl heaviestStep acc).isSome = true := by
  induction l generalizing acc with
  | nil => exact absurd hx (by simp [allTips])
  | cons b bs ih =>
    simp only [allTips, List.mem_append] at hx
    simp only [List.foldl_cons]
    rcases hx with hx | hx
    · have hb : b.heaviestTipSet.isSome = true :=
        heaviestTipSet_isSome b (by intro hnil; rw [hnil] at hx; exact absurd hx (by simp))
      obtain ⟨ht, hht⟩ := Option.isSome_iff_exists.mp hb
      have hs : (heaviestStep acc b).isSome = true := by
        simp only [heaviestStep, hht]
        rcases acc with _ | y
        · simp [pickHeavier]
        · simp only [pickHeavier]
          by_cases hw : y.weight < ht.weight
          · simp [hw]
          · simp [hw]
      exact foldl_heaviestStep_acc_some bs _ hs
    · exact ih _ hx

/-! Lemmas about bucketing a list of peer heads. -/

theorem foldl_Insert_allTips_mem (heads : List TipSet) (acc : syncBucketSet) (x : TipSet)
    (h : x ∈ allTips (heads.foldl syncBucketSet.Insert acc).buckets) :
    x ∈ allTips acc.buckets ∨ x ∈ heads := by
  induction heads generalizing acc with
  | nil => exact Or.inl h
  | cons ts rest ih =>
    simp only [List.foldl_cons] at h
    rcases ih _ h with h2 | h2
    · rcases mem_allTips_insertList acc.buckets ts x h2 with h3 | h3
      · exact Or.inl h3
      · exact Or.inr (by simp [h3])
    · exact Or.inr (List.mem_cons_of_mem _ h2)

theorem foldl_Insert_allTips_sub (heads : List TipSet) (acc : syncBucketSet) (x : TipSet)
    (h : x ∈ allTips acc.buckets) :
    x ∈ allTips (heads.foldl syncBucketSet.Insert acc).buckets := by
  induction heads generalizing acc with
  | nil => exact h
  | cons ts rest ih =>
    simp only [List.foldl_cons]
    exact ih _ (allTips_sub_insertList acc.buckets ts x h)

theorem foldl_Insert_covers (heads : List TipSet) (acc : syncBucketSet) (h : TipSet)
    (hh : h ∈ heads) :
    ∃ x ∈ allTips (heads.foldl syncBucketSet.Insert acc).buckets, x.Equals h = true := by
  induction heads generalizing acc with
  | nil => exact absurd hh (by simp)
  | cons ts rest ih =>
    simp only [List.foldl_cons]
    rcases List.mem_cons.mp hh with rfl | hh2
    · obtain ⟨x, hx, hxe⟩ := insertList_covers acc.buckets h
      exact ⟨x, foldl_Insert_allTips_sub rest _ x hx, hxe⟩
    · exact ih (acc.Insert ts) hh2

/-- The tip set returned by selectSyncTarget is one of the recorded peer
heads and, when equal identifiers mean equal tip sets, no recorded head is
strictly heavier. -/
theorem selectSyncTarget_spec (l : List (Nat × TipSet)) (hne : l ≠ [])
    (hwf : WFHeads (l.map Prod.snd)) :
    ∃ target, selectSyncTarget l = some target ∧ target ∈ l.map Prod.snd ∧
      ∀ h ∈ l.map Prod.snd, h.weight ≤ target.weight := by
  set heads := l.map Prod.snd with hheads
  have hperm : (heads.insertionSort (fun a b => a.height < b.height)).Perm heads :=
    List.perm_insertionSort _ heads
  set sorted := heads.insertionSort (fun a b => a.height < b.height) with hsorted
  have hmem : ∀ x, x ∈ sorted ↔ x ∈ heads := fun x => hperm.mem_iff
  have hheads_ne : heads ≠ [] := by
    intro hcon
    exact hne (List.map_eq_nil_iff.mp (hheads ▸ hcon))
  obtain ⟨h0, hh0⟩ := List.exists_mem_of_ne_nil heads hheads_ne
  have hh0s : h0 ∈ sorted := (hmem h0).mpr hh0
  obtain ⟨x0, hx0, _⟩ := foldl_Insert_covers sorted ⟨[]⟩ h0 hh0s
  have hsome : ((sorted.foldl syncBucketSet.Insert ⟨[]⟩).Heaviest).isSome = true :=
    foldl_heaviestStep_isSome _ none x0 hx0
  obtain ⟨target, htarget⟩ := Option.isSome_iff_exists.mp hsome
  have hsub : ∀ x, x ∈ allTips (sorted.foldl syncBucketSet.Insert ⟨[]⟩).buckets → x ∈ heads := by
    intro x hx
    rcases foldl_Insert_allTips_mem sorted ⟨[]⟩ x hx with h2 | h2
    · exact absurd h2 (by simp [allTips])
    · exact (hmem x).mp h2
  have htmem : target ∈ allTips (sorted.foldl syncBucketSet.Insert ⟨[]⟩).buckets := by
    rcases foldl_heaviestStep_mem _ none target htarget with h2 | h2
    · exact absurd h2 (by simp)
    · exact h2
  refine ⟨target, ?_, hsub target htmem, ?_⟩
  · simpa [selectSyncTarget] using htarget
  · intro h hh
    obtain ⟨x, hx, hxe⟩ := foldl_Insert_covers sorted ⟨[]⟩ h ((hmem h).mpr hh)
    have hxh : x = h := hwf x (hsub x hx) h hh hxe
    have := (foldl_heaviestStep_ge _ none target htarget).2 x hx
    rwa [hxh] at this

/-! Lemmas about the active-sync scan, PopRelated and the maps. -/

theorem relatedToActiveSync_iff (l : List TipSet) (ts : TipSet) (acc : Bool) :
    relatedToActiveSync l ts acc = true ↔
      acc = true ∨ ∃ l1 a l2, l = l1 ++ a :: l2 ∧
        CidArrsEqual ts.parents a.cids = true ∧
        ∀ x ∈ l1 ++ [a], ts.Equals x = false := by
  induction l generalizing acc with
  | nil =>
    simp only [relatedToActiveSync]
    constructor
    · intro h
      exact Or.inl h
    · rintro (h | ⟨l1, a, l2, hsplit, _, _⟩)
      · exact h
      · exact absurd hsplit (by simp)
  | cons h0 rest ih =>
    simp only [relatedToActiveSync]
    by_cases he : ts.Equals h0
    · rw [if_pos he]
      constructor
      · intro h
        exact Or.inl h
      · rintro (h | ⟨l1, a, l2, hsplit, hpar, hneq⟩)
        · exact h
        · exfalso
          match l1, hsplit with
          | [], hsplit =>
            have ha : a = h0 := by
              have := congrArg (fun l => l.head?) hsplit
              simpa using this.symm
            have := hneq a (by simp)
            rw [ha] at this
            rw [this] at he
            exact Bool.noConfusion he
          | x :: l1t, hsplit =>
            have hx : x = h0 := by
              have := congrArg (fun l => l.head?) hsplit
              simpa using this.symm
            have := hneq x (by simp)
            rw [hx] at this
            rw [this] at he
            exact Bool.noConfusion he
    · rw [if_neg he]
      rw [ih]
      have hef : ts.Equals h0 = false := Bool.not_eq_true _ ▸ (by simpa using he)
      constructor
      · rintro (h | ⟨l1, a, l2, hsplit, hpar, hneq⟩)
        · rcases Bool.or_eq_true _ _ |>.mp h with h | h
          · exact Or.inl h
          · exact Or.inr ⟨[], h0, rest, rfl, h, by simpa using hef⟩
        · refine Or.inr ⟨h0 :: l1, a, l2, by simp [hsplit], hpar, ?_⟩
          intro x hx
          rcases List.mem_cons.mp hx with rfl | hx
          · exact hef
          · exact hneq x hx
      · rintro (h | ⟨l1, a, l2, hsplit, hpar, hneq⟩)
        · exact Or.inl (Bool.or_eq_true _ _ |>.mpr (Or.inl h))
        · match l1, hsplit with
          | [], hsplit =>
            have ha : a = h0 := by
              have := congrArg (fun l => l.head?) hsplit
              simpa using this.symm
            have hl2 : rest = l2 := by
              have := congrArg (fun l => l.tail) hsplit
              simpa using this
            subst ha
            exact Or.inl (Bool.or_eq_true _ _ |>.mpr (Or.inr hpar))
          | x :: l1t, hsplit =>
            have hx : x = h0 := by
              have := congrArg (fun l => l.head?) hsplit
              simpa using this.symm
            have hrest : rest = l1t ++ a :: l2 := by
              have := congrArg (fun l => l.tail) hsplit
              simpa using this
            refine Or.inr ⟨l1t, a, l2, hrest, hpar, ?_⟩
            intro y hy
            exact hneq y (by simpa using Or.inr hy)

theorem popRelatedList_eq_none (l : List syncTargetBucket) (ts : TipSet) :
    popRelatedList l ts = none ↔ ∀ b ∈ l, b.sameChainAs ts = false := by
  induction l with
  | nil => simp [popRelatedList]
  | cons b bs ih =>
    simp only [popRelatedList]
    by_cases hc : b.sameChainAs ts
    · rw [if_pos hc]
      simp only [List.mem_cons]
      constructor
      · intro h
        exact absurd h (by simp)
      · intro h
        exact absurd hc (by simp [h b (Or.inl rfl)])
    · rw [if_neg hc]
      constructor
      · intro h
        intro c hcm
        rcases List.mem_cons.mp hcm with rfl | hcm
        · exact Bool.not_eq_true _ ▸ (by simpa using hc)
        · refine (ih.mp ?_) c hcm
          match hrec : popRelatedList bs ts with
          | none => rfl
          | some (r, rest) =>
            rw [hrec] at h
            exact absurd h (by simp)
      · intro h
        have : popRelatedList bs ts = none := ih.mpr (fun c hcm => h c (List.mem_cons_of_mem _ hcm))
        rw [this]

theorem popRelatedList_first (l : List syncTargetBucket) (ts : TipSet)
    (b : syncTargetBucket) (rest : List syncTargetBucket)
    (h : popRelatedList l ts = some (b, rest)) :
    b.sameChainAs ts = true ∧ ∃ l1 l2, l = l1 ++ b :: l2 ∧ rest = l1 ++ l2 ∧
      ∀ c ∈ l1, c.sameChainAs ts = false := by
  induction l generalizing rest with
  | nil => exact absurd h (by simp [popRelatedList])
  | cons b0 bs ih =>
    simp only [popRelatedList] at h
    by_cases hc : b0.sameChainAs ts
    · rw [if_pos hc] at h
      obtain ⟨rfl, rfl⟩ : b0 = b ∧ bs = rest := by
        have := Option.some_inj.mp h
        exact ⟨congrArg Prod.fst this, congrArg Prod.snd this⟩
      exact ⟨hc, [], bs, by simp, by simp, by simp⟩
    · rw [if_neg hc] at h
      match hrec : popRelatedList bs ts with
      | none =>
        rw [hrec] at h
        exact absurd h (by simp)
      | some (r, rest2) =>
        rw [hrec] at h
        obtain ⟨rfl, rfl⟩ : r = b ∧ b0 :: rest2 = rest := by
          have := Option.some_inj.mp h
          exact ⟨congrArg Prod.fst this, congrArg Prod.snd this⟩
        obtain ⟨hrel, l1, l2, hsplit, hrest, hnone⟩ := ih rest2 hrec
        refine ⟨hrel, b0 :: l1, l2, by simp [hsplit], by simp [hrest], ?_⟩
        intro c hcm
        rcases List.mem_cons.mp hcm with rfl | hcm
        · exact Bool.not_eq_true _ ▸ (by simpa using hc)
        · exact hnone c hcm

theorem mem_mapDelete (l : List TipSet) (k : List Cid) (t : TipSet)
    (h : t ∈ mapDelete l k) : t ∈ l ∧ (t.Key == k) = false := by
  have := List.mem_filter.mp h
  exact ⟨this.1, by simpa using this.2⟩

theorem mem_mapDelete_of (l : List TipSet) (k : List Cid) (t : TipSet)
    (h : t ∈ l) (hk : (t.Key == k) = false) : t ∈ mapDelete l k :=
  List.mem_filter.mpr ⟨h, by simp [hk]⟩

theorem insertList_no_match (bs : List syncTargetBucket) (ts : TipSet)
    (h : ∀ b ∈ bs, b.sameChainAs ts = false) :
    insertList bs ts = bs ++ [⟨[ts], 1⟩] := by
  induction bs with
  | nil => simp [insertList]
  | cons b bs ih =>
    simp only [insertList]
    rw [if_neg (by simp [h b (List.mem_cons_self b bs)])]
    rw [ih (fun c hc => h c (List.mem_cons_of_mem _ hc))]
    simp

theorem insertList_first_match (l1 : List syncTargetBucket) (b : syncTargetBucket)
    (l2 : List syncTargetBucket) (ts : TipSet)
    (h1 : ∀ c ∈ l1, c.sameChainAs ts = false) (hb : b.sameChainAs ts = true) :
    insertList (l1 ++ b :: l2) ts = l1 ++ b.add ts :: l2 := by
  induction l1 with
  | nil =>
    simp only [List.nil_append, insertList]
    rw [if_pos hb]
  | cons c l1t ih =>
    simp only [List.cons_append, insertList]
    rw [if_neg (by simp [h1 c (List.mem_cons_self c l1t)])]
    rw [List.append_eq]
    rw [ih (fun d hd => h1 d (List.mem_cons_of_mem _ hd))]

theorem sameChainAs_false_iff (b : syncTargetBucket) (ts : TipSet) :
    b.sameChainAs ts = false ↔ ∀ t ∈ b.tips, tipRelated ts t = false := by
  simp only [syncTargetBucket.sameChainAs]
  constructor
  · intro h t ht
    by_contra hcon
    have : b.tips.any (fun t => tipRelated ts t) = true :=
      List.any_eq_true.mpr ⟨t, ht, by simpa using hcon⟩
    rw [this] at h
    exact Bool.noConfusion h
  · intro h
    by_contra hcon
    obtain ⟨t, ht, hrel⟩ := List.any_eq_true.mp (by simpa using hcon)
    rw [h t ht] at hrel
    exact Bool.noConfusion hrel

/-- Inserting a tip set that is same-chain-related to at most one existing
bucket keeps the buckets pairwise unrelated. -/
theorem insertList_preserves_unrelated (bs : List syncTargetBucket) (ts : TipSet)
    (hpw : bs.Pairwise BucketsUnrelated)
    (hone : (bs.filter (fun b => b.sameChainAs ts)).length ≤ 1) :
    (insertList bs ts).Pairwise BucketsUnrelated := by
  induction bs with
  | nil =>
    simp only [insertList]
    exact List.pairwise_singleton _ _
  | cons b bs ih =>
    obtain ⟨hb, hbs⟩ := List.pairwise_cons.mp hpw
    simp only [insertList]
    by_cases hc : b.sameChainAs ts
    · rw [if_pos hc]
      have hcount : (bs.filter (fun c => c.sameChainAs ts)).length = 0 := by
        rw [List.filter_cons_of_pos (by simpa using hc)] at hone
        simp only [List.length_cons] at hone
        omega
      have hnone : ∀ c ∈ bs, c.sameChainAs ts = false := by
        intro c hcm
        by_contra hcon
        have hmem : c ∈ bs.filter (fun c => c.sameChainAs ts) :=
          List.mem_filter.mpr ⟨hcm, by simpa using hcon⟩
        rw [List.length_eq_zero.mp hcount] at hmem
        exact absurd hmem (by simp)
      refine List.pairwise_cons.mpr ⟨?_, hbs⟩
      intro c hcm t htm u hum
      rcases mem_add_tips b ts t htm with ht | rfl
      · exact hb c hcm t ht u hum
      · exact (sameChainAs_false_iff c t).mp (hnone c hcm) u hum
    · rw [if_neg hc]
      have hcnt2 : (bs.filter (fun c => c.sameChainAs ts)).length ≤ 1 := by
        rw [List.filter_cons_of_neg (by simpa using hc)] at hone
        exact hone
      refine List.pairwise_cons.mpr ⟨?_, ih hbs hcnt2⟩
      have hbf : ∀ t ∈ b.tips, tipRelated ts t = false :=
        (sameChainAs_false_iff b ts).mp (by simpa using hc)
      intro c hcm t htm u hum
      rcases mem_insertList bs ts c hcm with hcb | ⟨b2, hb2, rfl, _⟩ | rfl
      · exact hb c hcb t htm u hum
      · rcases mem_add_tips b2 ts u hum with hu | rfl
        · exact hb b2 hb2 t htm u hu
        · rw [tipRelated_symm]
          exact hbf t htm
      · have hu : u = ts := by simpa using hum
        subst hu
        rw [tipRelated_symm]
        exact hbf t htm

theorem lookup_setHead (l : List (Nat × TipSet)) (p : Nat) (ts : TipSet) :
    (setHead l p ts).lookup p = some ts := by
  by_cases hc : l.any (fun e => e.1 == p)
  · simp only [setHead, if_pos hc]
    induction l with
    | nil => exact absurd hc (by simp)
    | cons e rest ih =>
      simp only [List.map_cons]
      by_cases he : e.1 == p
      · rw [if_pos he]
        simp [List.lookup]
      · rw [if_neg he]
        have hne : (p == e.1) = false := by
          refine beq_eq_false_iff_ne.mpr ?_
          intro hcon
          exact absurd (beq_iff_eq.mpr hcon.symm) (by simpa using he)
        have hrest : rest.any (fun e => e.1 == p) := by
          rcases List.any_eq_true.mp hc with ⟨x, hx, hxe⟩
          rcases List.mem_cons.mp hx with rfl | hx
          · exact absurd hxe (by simpa using he)
          · exact List.any_eq_true.mpr ⟨x, hx, hxe⟩
        simp only [List.lookup, hne]
        exact ih hrest
  · simp only [setHead, if_neg hc]
    induction l with
    | nil =>
      simp [List.lookup]
    | cons e rest ih =>
      have he : (e.1 == p) = false := by
        by_contra hcon
        exact hc (List.any_eq_true.mpr ⟨e, List.mem_cons_self e rest, by simpa using hcon⟩)
      have hne : (p == e.1) = false := by
        refine beq_eq_false_iff_ne.mpr ?_
        intro hcon
        exact absurd (beq_iff_eq.mpr hcon.symm) (by simp [he])
      simp only [List.cons_append, List.lookup, hne]
      refine ih ?_
      intro hcon
      exact hc (by simp only [List.any_cons]; exact Bool.or_eq_true _ _ |>.mpr (Or.inr hcon))

/-! Claim theorems. -/

/-- C1 (code bug): the claimed invariant — the active-sync set never holds
two same-chain-related entries — is violated.  After the events: exA
arrives, exA is dispatched, exC arrives (exC's identifiers equal exA's
parents), exC is dispatched, the active-sync set holds both exA and exC,
which are same-chain-related and distinct.  The scan in scheduleIncoming
only flags the child direction (incoming parents equal to an active tip
set's identifiers), so the parent of an active tip set starts a parallel
sync on the same lineage, contradicting the code's stated intent of never
duplicating in-flight work. -/
theorem C1_two_related_active_syncs :
    runEvents initSchedState [.incoming exA, .workSent, .incoming exC, .workSent] =
      .ok { activeSyncs := [exA, exC], syncQueue := ⟨[]⟩, activeSyncTips := ⟨[]⟩,
            nextSyncTarget := none, workerChanOpen := false } ∧
    tipRelated exA exC = true ∧ exA ≠ exC :=
  ⟨rfl, rfl, by decide⟩

/-- C2 counterexample: a newly arrived tip set that is same-chain-related to
an active tip set by equality (exA while exA is active) or by the parent
relation (exC, parent of active exA) is NOT inserted into the overflow set:
in both runs the overflow set stays empty and the arrival instead becomes
the next dispatch target through the pending queue. -/
theorem C2_incoming_counterexample :
    tipRelated exA exA = true ∧
    runEvents initSchedState [.incoming exA, .workSent, .incoming exA] =
      .ok { activeSyncs := [exA], syncQueue := ⟨[]⟩, activeSyncTips := ⟨[]⟩,
            nextSyncTarget := some ⟨[exA], 1⟩, workerChanOpen := true } ∧
    tipRelated exC exA = true ∧
    runEvents initSchedState [.incoming exA, .workSent, .incoming exC] =
      .ok { activeSyncs := [exA], syncQueue := ⟨[]⟩, activeSyncTips := ⟨[]⟩,
            nextSyncTarget := some ⟨[exC], 1⟩, workerChanOpen := true } :=
  ⟨rfl, rfl, rfl, rfl⟩

/-- C2 (amended): only the child direction routes an incoming tip set to the
overflow set.  When the scan over the active-sync entries returns true, the
scheduler inserts the tip set into the overflow set and changes nothing
else; and the scan returns true exactly when some active entry whose
identifiers equal the incoming tip set's parents occurs before any active
entry equal to the incoming tip set. -/
theorem C2_amended_child_overflow (sm : SchedState) (ts : TipSet) :
    (relatedToActiveSync sm.activeSyncs ts false = true →
      scheduleIncoming sm ts = .ok { sm with activeSyncTips := sm.activeSyncTips.Insert ts }) ∧
    (relatedToActiveSync sm.activeSyncs ts false = true ↔
      ∃ l1 a l2, sm.activeSyncs = l1 ++ a :: l2 ∧
        CidArrsEqual ts.parents a.cids = true ∧
        ∀ x ∈ l1 ++ [a], ts.Equals x = false) := by
  constructor
  · intro h
    simp [scheduleIncoming, h]
  · rw [relatedToActiveSync_iff]
    simp

/-- Witness for C2_amended_child_overflow at a state with active sync u1 and
incoming child u2. -/
theorem C2_amended_child_overflow_witness :
    relatedToActiveSync wState.activeSyncs u2 false = true ∧
    scheduleIncoming wState u2 =
      .ok { wState with activeSyncTips := wState.activeSyncTips.Insert u2 } :=
  ⟨by decide, (C2_amended_child_overflow wState u2).1 (by decide)⟩

/-- C4: Insert appends a fresh singleton bucket with counter 1 when no
bucket is related to the tip set; otherwise the tip set joins the first
related bucket; add always increments the counter and appends the tip set
exactly when no equal member is present. -/
theorem C4_insert_behavior (sbs : syncBucketSet) (ts : TipSet) :
    ((∀ b ∈ sbs.buckets, b.sameChainAs ts = false) →
      (sbs.Insert ts).buckets = sbs.buckets ++ [⟨[ts], 1⟩]) ∧
    (∀ l1 b l2, sbs.buckets = l1 ++ b :: l2 →
      (∀ c ∈ l1, c.sameChainAs ts = false) → b.sameChainAs ts = true →
      (sbs.Insert ts).buckets = l1 ++ b.add ts :: l2) ∧
    (∀ b : syncTargetBucket, (b.add ts).count = b.count + 1) ∧
    ∀ b : syncTargetBucket,
      ((∃ t ∈ b.tips, t.Equals ts = true) → (b.add ts).tips = b.tips) ∧
      ((∀ t ∈ b.tips, t.Equals ts = false) → (b.add ts).tips = b.tips ++ [ts]) := by
  refine ⟨?_, ?_, ?_, ?_⟩
  · intro h
    simp only [syncBucketSet.Insert]
    exact insertList_no_match sbs.buckets ts h
  · intro l1 b l2 hsplit h1 hb
    simp only [syncBucketSet.Insert, hsplit]
    exact insertList_first_match l1 b l2 ts h1 hb
  · intro b
    simp only [syncTargetBucket.add]
    by_cases hc : b.tips.any (fun t => t.Equals ts)
    · rw [if_pos hc]
    · rw [if_neg hc]
  · intro b
    constructor
    · rintro ⟨t, ht, hte⟩
      simp only [syncTargetBucket.add]
      rw [if_pos (List.any_eq_true.mpr ⟨t, ht, by simpa using hte⟩)]
    · intro h
      simp only [syncTargetBucket.add]
      rw [if_neg ?_]
      intro hcon
      obtain ⟨t, ht, hte⟩ := List.any_eq_true.mp (by simpa using hcon)
      rw [h t ht] at hte
      exact Bool.noConfusion hte

/-- Witness for C4_insert_behavior: u2 is unrelated to the first bucket and
joins the second. -/
theorem C4_insert_behavior_witness :
    (∀ c ∈ [(⟨[u0], 1⟩ : syncTargetBucket)], c.sameChainAs u2 = false) ∧
    (⟨[u1], 1⟩ : syncTargetBucket).sameChainAs u2 = true ∧
    (syncBucketSet.Insert ⟨[⟨[u0], 1⟩, ⟨[u1], 1⟩]⟩ u2).buckets =
      [⟨[u0], 1⟩] ++ (⟨[u1], 1⟩ : syncTargetBucket).add u2 :: [] :=
  ⟨by decide, by decide,
    (C4_insert_behavior ⟨[⟨[u0], 1⟩, ⟨[u1], 1⟩]⟩ u2).2.1
      [⟨[u0], 1⟩] ⟨[u1], 1⟩ [] rfl (by decide) (by decide)⟩

/-- C3: bootstrap gating.  SetPeerHead always records the reported head.
Before bootstrap, while the count of peers with heads of height above zero
is below the threshold, nothing is forwarded and the flag stays false; once
the count reaches the threshold, the flag becomes true and exactly one tip
set is forwarded — one of the recorded heads, of maximal weight among them
(weight comparison only).  After bootstrap every head is forwarded
unconditionally. -/
theorem C3_bootstrap_gating (sm : SyncManager) (p : Nat) (ts : TipSet) :
    ((SyncManager.SetPeerHead sm p ts).1.peerHeads.lookup p = some ts) ∧
    (sm.bootstrapped = false →
      syncedPeerCount (setHead sm.peerHeads p ts) < sm.bspThresh →
      (SyncManager.SetPeerHead sm p ts).2 = none ∧
        (SyncManager.SetPeerHead sm p ts).1.bootstrapped = false) ∧
    (sm.bootstrapped = false →
      sm.bspThresh ≤ syncedPeerCount (setHead sm.peerHeads p ts) →
      WFHeads ((setHead sm.peerHeads p ts).map Prod.snd) →
      (SyncManager.SetPeerHead sm p ts).1.bootstrapped = true ∧
      ∃ target, (SyncManager.SetPeerHead sm p ts).2 = some target ∧
        target ∈ (setHead sm.peerHeads p ts).map Prod.snd ∧
        ∀ h ∈ (setHead sm.peerHeads p ts).map Prod.snd, h.weight ≤ target.weight) ∧
    (sm.bootstrapped = true → (SyncManager.SetPeerHead sm p ts).2 = some ts) := by
  refine ⟨?_, ?_, ?_, ?_⟩
  · simp only [SyncManager.SetPeerHead]
    by_cases hb : sm.bootstrapped
    · rw [if_pos hb]
      exact lookup_setHead _ p ts
    · rw [if_neg hb]
      by_cases hq : sm.bspThresh ≤ syncedPeerCount (setHead sm.peerHeads p ts)
      · rw [if_pos hq]
        exact lookup_setHead _ p ts
      · rw [if_neg hq]
        exact lookup_setHead _ p ts
  · intro hb hlt
    simp only [SyncManager.SetPeerHead]
    rw [if_neg (by simp [hb]), if_neg (not_le.mpr hlt)]
    exact ⟨rfl, hb⟩
  · intro hb hq hwf
    have hsetne : setHead sm.peerHeads p ts ≠ [] := by
      simp only [setHead]
      by_cases hc : sm.peerHeads.any (fun e => e.1 == p)
      · rw [if_pos hc]
        intro hcon
        have hpne : sm.peerHeads = [] := List.map_eq_nil_iff.mp hcon
        rw [hpne] at hc
        exact absurd hc (by simp)
      · rw [if_neg hc]
        simp
    obtain ⟨target, ht, hmem, hmax⟩ := selectSyncTarget_spec _ hsetne hwf
    simp only [SyncManager.SetPeerHead]
    rw [if_neg (by simp [hb]), if_pos hq]
    exact ⟨rfl, target, ht, hmem, hmax⟩
  · intro hb
    simp only [SyncManager.SetPeerHead]
    rw [if_pos hb]

/-- Witness for C3_bootstrap_gating with threshold 2: the first report (u1,
height 1) forwards nothing; the second report from a distinct peer (wT9,
weight 99) reaches quorum and forwards a maximal-weight head. -/
theorem C3_bootstrap_gating_witness :
    syncedPeerCount (setHead [] 1 u1) < 2 ∧
    (SyncManager.SetPeerHead ⟨[], false, 2⟩ 1 u1).2 = none ∧
    ((SyncManager.SetPeerHead ⟨[(1, u1)], false, 2⟩ 2 wT9).1.bootstrapped = true ∧
      ∃ target, (SyncManager.SetPeerHead ⟨[(1, u1)], false, 2⟩ 2 wT9).2 = some target ∧
        target ∈ (setHead [(1, u1)] 2 wT9).map Prod.snd ∧
        ∀ h ∈ (setHead [(1, u1)] 2 wT9).map Prod.snd, h.weight ≤ target.weight) :=
  ⟨by decide,
   ((C3_bootstrap_gating ⟨[], false, 2⟩ 1 u1).2.1 rfl (by decide)).1,
   (C3_bootstrap_gating ⟨[(1, u1)], false, 2⟩ 2 wT9).2.2.1 rfl (by decide) (by decide)⟩

/-- C5: Pop on a non-empty bucket set returns and removes the first bucket
whose heaviest member has maximal weight across all buckets — every bucket
before it is strictly lighter, every bucket after it no heavier — and
heaviestTipSet returns the first member of maximal weight within a bucket.
Weight is the only quantity compared. -/
theorem C5_pop_heaviest (sbs : syncBucketSet) (hne : sbs.buckets ≠ []) :
    (∃ b rest, sbs.Pop = .ok (b, rest) ∧
      ∃ l1 l2, sbs.buckets = l1 ++ b :: l2 ∧ rest.buckets = l1 ++ l2 ∧
        (∀ c ∈ l1, bucketWeight c < bucketWeight b) ∧
        ∀ c ∈ l2, bucketWeight c ≤ bucketWeight b) ∧
    ∀ c : syncTargetBucket, c.tips ≠ [] →
      ∃ t l1 l2, c.heaviestTipSet = some t ∧ bucketWeight c = t.weight ∧
        c.tips = l1 ++ t :: l2 ∧ (∀ x ∈ l1, x.weight < t.weight) ∧
        ∀ x ∈ l2, x.weight ≤ t.weight := by
  constructor
  · obtain ⟨pr, hpr⟩ := Option.isSome_iff_exists.mp (selectBest_isSome sbs.buckets hne)
    obtain ⟨b, rest⟩ := pr
    obtain ⟨l1, l2, hsplit, hrest, hlt, hle⟩ := selectBest_first_max _ b rest hpr
    refine ⟨b, ⟨l1 ++ l2⟩, ?_, l1, l2, hsplit, rfl, hlt, hle⟩
    simp only [syncBucketSet.Pop, hpr]
    rw [hrest]
  · intro c hc
    obtain ⟨t, l1, l2, ht, hsplit, hlt, hle⟩ := heaviestTipSet_first_max c hc
    refine ⟨t, l1, l2, ht, ?_, hsplit, hlt, hle⟩
    simp [bucketWeight, ht]

/-- Witness for C5_pop_heaviest on a concrete two-bucket set whose second
bucket holds the heaviest member. -/
theorem C5_pop_heaviest_witness :
    wPopSet.buckets ≠ [] ∧
    ∃ b rest, wPopSet.Pop = .ok (b, rest) ∧
      ∃ l1 l2, wPopSet.buckets = l1 ++ b :: l2 ∧ rest.buckets = l1 ++ l2 ∧
        (∀ c ∈ l1, bucketWeight c < bucketWeight b) ∧
        ∀ c ∈ l2, bucketWeight c ≤ bucketWeight b :=
  ⟨by decide, (C5_pop_heaviest wPopSet (by decide)).1⟩

/-- C6 counterexample: after processing c6Trace, the pending queue holds the
buckets for u3 and for u2, and the u3 bucket is same-chain-related to u2
(u3's parents are u2's identifiers), so two same-chain-related buckets
coexist in the pending queue at a quiescent point. -/
theorem C6_partition_counterexample :
    runEvents initSchedState c6Trace =
      .ok { activeSyncs := [], syncQueue := ⟨[⟨[u3], 1⟩, ⟨[u2], 1⟩]⟩,
            activeSyncTips := ⟨[]⟩, nextSyncTarget := some ⟨[u0], 1⟩,
            workerChanOpen := true } ∧
    (⟨[u3], 1⟩ : syncTargetBucket).sameChainAs u2 = true ∧
    u2 ∈ (⟨[u2], 1⟩ : syncTargetBucket).tips :=
  ⟨rfl, rfl, by decide⟩

/-- C6 (amended): Insert itself never splits a lineage — if the buckets of a
set are pairwise unrelated and the inserted tip set is same-chain-related to
at most one existing bucket, the buckets remain pairwise unrelated.  The
unrestricted partition invariant fails at quiescent points because result
processing appends an overflow bucket to the queue without merging, and a
bridging tip set can relate two previously unrelated buckets. -/
theorem C6_amended_insert_partition (sbs : syncBucketSet) (ts : TipSet)
    (hpw : sbs.buckets.Pairwise BucketsUnrelated)
    (hone : (sbs.buckets.filter (fun b => b.sameChainAs ts)).length ≤ 1) :
    (sbs.Insert ts).buckets.Pairwise BucketsUnrelated :=
  insertList_preserves_unrelated sbs.buckets ts hpw hone

/-- Witness for C6_amended_insert_partition: inserting u2 into unrelated
buckets for u0 and u1 (u2 relates only to the u1 bucket). -/
theorem C6_amended_insert_partition_witness :
    (([⟨[u0], 1⟩, ⟨[u1], 1⟩] : List syncTargetBucket).filter
        (fun b => b.sameChainAs u2)).length ≤ 1 ∧
    (syncBucketSet.Insert ⟨[⟨[u0], 1⟩, ⟨[u1], 1⟩]⟩ u2).buckets.Pairwise BucketsUnrelated :=
  ⟨by decide,
   C6_amended_insert_partition ⟨[⟨[u0], 1⟩, ⟨[u1], 1⟩]⟩ u2 (by decide) (by decide)⟩

/-- C7: processing a worker result always removes the reported tip set's key
from the active-sync set (keeping unrelated entries) and pops the first
related bucket (if any) from the overflow set; on success that bucket
becomes the dispatch target when none is set, otherwise it is appended to
the pending queue; on failure it is discarded — queue and target are left
unchanged, so the failed lineage is not retried automatically. -/
theorem C7_process_result (sm : SchedState) (res : syncResult) :
    (∀ t ∈ (scheduleProcessResult sm res).activeSyncs, (t.Key == res.ts.Key) = false) ∧
    (∀ t ∈ sm.activeSyncs, (t.Key == res.ts.Key) = false →
      t ∈ (scheduleProcessResult sm res).activeSyncs) ∧
    (sm.activeSyncTips.PopRelated res.ts = none →
      (∀ b ∈ sm.activeSyncTips.buckets, b.sameChainAs res.ts = false) ∧
      (scheduleProcessResult sm res).activeSyncTips = sm.activeSyncTips ∧
      (scheduleProcessResult sm res).syncQueue = sm.syncQueue ∧
      (scheduleProcessResult sm res).nextSyncTarget = sm.nextSyncTarget) ∧
    (∀ b rest, sm.activeSyncTips.PopRelated res.ts = some (b, rest) →
      (b.sameChainAs res.ts = true ∧
        ∃ l1 l2, sm.activeSyncTips.buckets = l1 ++ b :: l2 ∧ rest.buckets = l1 ++ l2 ∧
          ∀ c ∈ l1, c.sameChainAs res.ts = false) ∧
      (scheduleProcessResult sm res).activeSyncTips = rest ∧
      (res.success = true → sm.nextSyncTarget = none →
        (scheduleProcessResult sm res).nextSyncTarget = some b ∧
        (scheduleProcessResult sm res).syncQueue = sm.syncQueue ∧
        (scheduleProcessResult sm res).workerChanOpen = true) ∧
      (res.success = true → ∀ tgt, sm.nextSyncTarget = some tgt →
        (scheduleProcessResult sm res).syncQueue.buckets = sm.syncQueue.buckets ++ [b] ∧
        (scheduleProcessResult sm res).nextSyncTarget = some tgt) ∧
      (res.success = false →
        (scheduleProcessResult sm res).syncQueue = sm.syncQueue ∧
        (scheduleProcessResult sm res).nextSyncTarget = sm.nextSyncTarget ∧
        (scheduleProcessResult sm res).workerChanOpen = sm.workerChanOpen)) := by
  have hact : (scheduleProcessResult sm res).activeSyncs = mapDelete sm.activeSyncs res.ts.Key := by
    rcases hpop : sm.activeSyncTips.PopRelated res.ts with _ | ⟨b, rest⟩
    · simp [scheduleProcessResult, hpop]
    · by_cases hs : res.success
      · rcases htgt : sm.nextSyncTarget with _ | tgt
        · simp [scheduleProcessResult, hpop, hs, htgt]
        · simp [scheduleProcessResult, hpop, hs, htgt]
      · simp [scheduleProcessResult, hpop, hs]
  refine ⟨?_, ?_, ?_, ?_⟩
  · intro t ht
    rw [hact] at ht
    exact (mem_mapDelete _ _ t ht).2
  · intro t ht hk
    rw [hact]
    exact mem_mapDelete_of _ _ t ht hk
  · intro hpop
    have hprl : popRelatedList sm.activeSyncTips.buckets res.ts = none := by
      rcases hrec : popRelatedList sm.activeSyncTips.buckets res.ts with _ | ⟨b2, rest2⟩
      · rfl
      · simp only [syncBucketSet.PopRelated, hrec] at hpop
        exact absurd hpop (by simp)
    refine ⟨(popRelatedList_eq_none _ _).mp hprl, ?_, ?_, ?_⟩
    · simp [scheduleProcessResult, hpop]
    · simp [scheduleProcessResult, hpop]
    · simp [scheduleProcessResult, hpop]
  · intro b rest hpop
    have hprl : popRelatedList sm.activeSyncTips.buckets res.ts = some (b, rest.buckets) := by
      rcases hrec : popRelatedList sm.activeSyncTips.buckets res.ts with _ | ⟨b2, rest2⟩
      · simp only [syncBucketSet.PopRelated, hrec] at hpop
        exact absurd hpop (by simp)
      · simp only [syncBucketSet.PopRelated, hrec] at hpop
        have hinj := Option.some_inj.mp hpop
        have hb : b2 = b := congrArg Prod.fst hinj
        have hr : (⟨rest2⟩ : syncBucketSet) = rest := congrArg Prod.snd hinj
        have hrb : rest2 = rest.buckets := congrArg syncBucketSet.buckets hr
        rw [hb, hrb]
    obtain ⟨hrel, l1, l2, hsplit, hrest, hnone⟩ := popRelatedList_first _ _ _ _ hprl
    refine ⟨⟨hrel, l1, l2, hsplit, hrest, hnone⟩, ?_, ?_, ?_, ?_⟩
    · by_cases hs : res.success
      · rcases htgt : sm.nextSyncTarget with _ | tgt
        · simp [scheduleProcessResult, hpop, hs, htgt]
        · simp [scheduleProcessResult, hpop, hs, htgt]
      · simp [scheduleProcessResult, hpop, hs]
    · intro hs htgt
      refine ⟨?_, ?_, ?_⟩ <;> simp [scheduleProcessResult, hpop, hs, htgt]
    · intro hs tgt htgt
      refine ⟨?_, ?_⟩ <;> simp [scheduleProcessResult, hpop, hs, htgt]
    · intro hs
      refine ⟨?_, ?_, ?_⟩ <;> simp [scheduleProcessResult, hpop, hs]

/-- Witness for C7_process_result: at wState, the successful result for u1
pops the overflow bucket holding u2, empties the overflow set and promotes
that bucket to dispatch target. -/
theorem C7_process_result_witness :
    wState.activeSyncTips.PopRelated u1 = some (⟨[u2], 1⟩, ⟨[]⟩) ∧
    (scheduleProcessResult wState ⟨u1, true⟩).activeSyncTips = ⟨[]⟩ ∧
    (scheduleProcessResult wState ⟨u1, true⟩).nextSyncTarget = some ⟨[u2], 1⟩ :=
  ⟨by decide,
   ((C7_process_result wState ⟨u1, true⟩).2.2.2 ⟨[u2], 1⟩ ⟨[]⟩ (by decide)).2.1,
   (((C7_process_result wState ⟨u1, true⟩).2.2.2 ⟨[u2], 1⟩ ⟨[]⟩ (by decide)).2.2.1 rfl rfl).1⟩

/-- C8: overflow replay.  For any t1 and child t2 (t2's parents equal t1's
identifiers, and t2 not equal to t1): after t1 arrives and is dispatched,
t2 arrives (entering the overflow set), and t1's job succeeds, the bucket
holding t2 becomes the dispatch target — with only a single arrival of t2
in the event sequence. -/
theorem C8_overflow_replay (t1 t2 : TipSet)
    (hpar : CidArrsEqual t2.parents t1.cids = true)
    (hne : TipSet.Equals t2 t1 = false) :
    runEvents initSchedState
        [.incoming t1, .workSent, .incoming t2, .result ⟨t1, true⟩] =
      .ok { activeSyncs := [], syncQueue := ⟨[]⟩, activeSyncTips := ⟨[]⟩,
            nextSyncTarget := some ⟨[t2], 1⟩, workerChanOpen := true } := by
  have hpar2 : t2.parents = t1.cids := by simpa [CidArrsEqual] using hpar
  have hne2 : (t2.cids == t1.cids) = false := by simpa [TipSet.Equals] using hne
  have h1 : schedStep initSchedState (.incoming t1) =
      .ok { activeSyncs := [], syncQueue := ⟨[]⟩, activeSyncTips := ⟨[]⟩,
            nextSyncTarget := some ⟨[t1], 1⟩, workerChanOpen := true } := rfl
  have h2 : schedStep
      ({ activeSyncs := [], syncQueue := ⟨[]⟩, activeSyncTips := ⟨[]⟩,
         nextSyncTarget := some ⟨[t1], 1⟩, workerChanOpen := true } : SchedState)
      SchedEvent.workSent =
      .ok { activeSyncs := [t1], syncQueue := ⟨[]⟩, activeSyncTips := ⟨[]⟩,
            nextSyncTarget := none, workerChanOpen := false } := rfl
  have h3 : schedStep
      ({ activeSyncs := [t1], syncQueue := ⟨[]⟩, activeSyncTips := ⟨[]⟩,
         nextSyncTarget := none, workerChanOpen := false } : SchedState)
      (.incoming t2) =
      .ok { activeSyncs := [t1], syncQueue := ⟨[]⟩,
            activeSyncTips := ⟨[⟨[t2], 1⟩]⟩,
            nextSyncTarget := none, workerChanOpen := false } := by
    simp [schedStep, scheduleIncoming, relatedToActiveSync, TipSet.Equals, hne2,
      CidArrsEqual, hpar2, syncBucketSet.Insert, insertList]
  have h4 : schedStep
      ({ activeSyncs := [t1], syncQueue := ⟨[]⟩, activeSyncTips := ⟨[⟨[t2], 1⟩]⟩,
         nextSyncTarget := none, workerChanOpen := false } : SchedState)
      (.result ⟨t1, true⟩) =
      .ok { activeSyncs := [], syncQueue := ⟨[]⟩, activeSyncTips := ⟨[]⟩,
            nextSyncTarget := some ⟨[t2], 1⟩, workerChanOpen := true } := by
    simp [schedStep, scheduleProcessResult, mapDelete, TipSet.Key,
      syncBucketSet.PopRelated, popRelatedList, syncTargetBucket.sameChainAs,
      tipRelated, TipSet.Equals, CidArrsEqual, hpar2]
  simp only [runEvents, h1, h2, h3, h4]

/-- Witness for C8_overflow_replay at the concrete chain u1 with child u2. -/
theorem C8_overflow_replay_witness :
    CidArrsEqual u2.parents u1.cids = true ∧
    TipSet.Equals u2 u1 = false ∧
    runEvents initSchedState
        [.incoming u1, .workSent, .incoming u2, .result ⟨u1, true⟩] =
      .ok { activeSyncs := [], syncQueue := ⟨[]⟩, activeSyncTips := ⟨[]⟩,
            nextSyncTarget := some ⟨[u2], 1⟩, workerChanOpen := true } :=
  ⟨by decide, by decide, C8_overflow_replay u1 u2 (by decide) (by decide)⟩

/-- C9: Pop of an empty bucket set is the modelled runtime panic (Go
allocates a slice of capacity -1 when removing the nil best bucket) rather
than an empty result; and both scheduler call sites are safe: scheduleIncoming
always succeeds (its Pop follows an Insert, so the queue is non-empty), and
scheduleWorkSent succeeds whenever a dispatch target with at least one tip
is set (its Pop is guarded by a non-empty-queue check). -/
theorem C9_pop_empty_panics (sm : SchedState) (ts : TipSet) (tgt : syncTargetBucket) :
    (syncBucketSet.Pop ⟨[]⟩ = .error ()) ∧
    (∃ s2, scheduleIncoming sm ts = .ok s2) ∧
    (sm.nextSyncTarget = some tgt → tgt.tips ≠ [] →
      ∃ s2, scheduleWorkSent sm = .ok s2) := by
  refine ⟨rfl, ?_, ?_⟩
  · simp only [scheduleIncoming]
    by_cases hrel : relatedToActiveSync sm.activeSyncs ts false
    · rw [if_pos hrel]
      exact ⟨_, rfl⟩
    · rw [if_neg hrel]
      rcases htgt : sm.nextSyncTarget with _ | t
      · rcases hp : (sm.syncQueue.Insert ts).Pop with e | ⟨b, q⟩
        · exfalso
          have hne := insertList_ne_nil sm.syncQueue.buckets ts
          obtain ⟨⟨b2, rest2⟩, hb⟩ := Option.isSome_iff_exists.mp
            (selectBest_isSome (insertList sm.syncQueue.buckets ts) hne)
          simp only [syncBucketSet.Pop, syncBucketSet.Insert, hb] at hp
          exact absurd hp (by simp)
        · exact ⟨_, rfl⟩
      · by_cases hchain : t.sameChainAs ts
        · refine ⟨{ sm with nextSyncTarget := some (t.add ts) }, ?_⟩
          simp [hchain]
        · refine ⟨{ sm with syncQueue := sm.syncQueue.Insert ts }, ?_⟩
          simp [hchain, htgt]
  · intro htgt htips
    obtain ⟨hts, hhts⟩ := Option.isSome_iff_exists.mp (heaviestTipSet_isSome tgt htips)
    simp only [scheduleWorkSent, htgt, hhts]
    by_cases hlen : 0 < sm.syncQueue.buckets.length
    · rw [if_pos hlen]
      rcases hp : sm.syncQueue.Pop with e | ⟨b2, q2⟩
      · exfalso
        have hqne : sm.syncQueue.buckets ≠ [] := by
          intro hcon
          rw [hcon] at hlen
          exact absurd hlen (by simp)
        obtain ⟨⟨b, rest⟩, hb⟩ := Option.isSome_iff_exists.mp
          (selectBest_isSome sm.syncQueue.buckets hqne)
        simp only [syncBucketSet.Pop, hb] at hp
        exact absurd hp (by simp)
      · exact ⟨_, rfl⟩
    · rw [if_neg hlen]
      exact ⟨_, rfl⟩

/-- Witness for C9_pop_empty_panics at wState with the dispatch target set to
the u2 bucket. -/
theorem C9_pop_empty_panics_witness :
    (∃ s2, scheduleIncoming wState u3 = .ok s2) ∧
    ({ wState with nextSyncTarget := some ⟨[u2], 1⟩ }.nextSyncTarget = some ⟨[u2], 1⟩ ∧
      ∃ s2, scheduleWorkSent { wState with nextSyncTarget := some ⟨[u2], 1⟩ } = .ok s2) :=
  ⟨(C9_pop_empty_panics wState u3 ⟨[u2], 1⟩).2.1,
   rfl,
   (C9_pop_empty_panics { wState with nextSyncTarget := some ⟨[u2], 1⟩ } u3 ⟨[u2], 1⟩).2.2
     rfl (by decide)⟩

/-- C10: the constructor hard-codes bootstrap threshold 1 while the declared
package constant BootstrapPeerThreshold is 2, so the very first peer head
with height above zero reaches quorum: it is recorded, selected as the
initial sync target, forwarded, and the bootstrapped flag is set. -/
theorem C10_threshold_one (p : Nat) (ts : TipSet) (h : 0 < ts.height) :
    NewSyncManager.bspThresh = 1 ∧ BootstrapPeerThreshold = 2 ∧
    SyncManager.SetPeerHead NewSyncManager p ts =
      ({ peerHeads := [(p, ts)], bootstrapped := true, bspThresh := 1 }, some ts) := by
  refine ⟨rfl, rfl, ?_⟩
  have hset : setHead [] p ts = [(p, ts)] := by simp [setHead]
  have hcount : syncedPeerCount [(p, ts)] = 1 := by
    simp [syncedPeerCount, List.filter_cons, h]
  have hsel : selectSyncTarget [(p, ts)] = some ts := by
    simp [selectSyncTarget, List.insertionSort, List.orderedInsert,
      syncBucketSet.Insert, insertList, syncBucketSet.Heaviest, heaviestStep,
      syncTargetBucket.heaviestTipSet, pickHeavier]
  simp only [SyncManager.SetPeerHead, NewSyncManager, hset]
  rw [if_neg (by simp)]
  rw [if_pos (by rw [hcount])]
  rw [hsel]

/-- Witness for C10_threshold_one at peer 7 reporting u1 (height 1). -/
theorem C10_threshold_one_witness :
    0 < u1.height ∧
    SyncManager.SetPeerHead NewSyncManager 7 u1 =
      ({ peerHeads := [(7, u1)], bootstrapped := true, bspThresh := 1 }, some u1) :=
  ⟨by decide, (C10_threshold_one 7 u1 (by decide)).2.2⟩

end LotusSync
